import Mathlib

/-!
Verification of the dataset dependency and download-orchestration subsystem
of osmscout-server (`MapManager::Manager`).

The shallow embedding below follows `src/mapmanager.h` (the class declaration,
its member initializers and its documentation comments) together with the
behaviour of `mapmanager.cpp` as described by the specification; the
implementation file itself is not part of the source tree given here, so the
operation bodies are modelled from the spec, as marked on each definition.
-/

namespace OsmScout

/-- A row of the file-ownership registry (`files.sqlite`): a downloaded file
path together with the dataset id and version that produced it. -/
structure RegistryEntry where
  path : String
  datasetId : String
  version : String
deriving DecidableEq, Repr

/-- Download session kinds, from the `DownloadType` enum in `mapmanager.h`
(`NoDownload=0, Countries=1, ServerUrl=2, ProvidedList=3`). `NoDownload`
means the session is Idle. -/
inductive DownloadType
  | NoDownload
  | Countries
  | ServerUrl
  | ProvidedList
deriving DecidableEq, Repr

/-- Derived availability status of a dataset id. -/
inductive Availability
  | absent
  | presentCompatible
  | presentIncompatible
deriving DecidableEq, Repr

/-- Modelled from the spec: Availability Status is derived from the registry
entries with matching id and the catalog's current version; `absent` when no
entry exists, `presentIncompatible` when a registered version differs from
the catalog version. -/
def availability (registry : List RegistryEntry) (id catalogVersion : String) :
    Availability :=
  let es := registry.filter (fun e => e.datasetId == id)
  if es = [] then Availability.absent
  else if es.all (fun e => e.version == catalogVersion) then
    Availability.presentCompatible
  else Availability.presentIncompatible

/-- Modelled from the spec: `addCountry` adds a dataset id to the Requested
Set (`m_maps_requested`), a set of ids mutated only by explicit add/remove. -/
def addCountry (req : Finset String) (id : String) : Finset String :=
  insert id req

/-- Modelled from the spec: `rmCountry` removes a dataset id from the
Requested Set. -/
def rmCountry (req : Finset String) (id : String) : Finset String :=
  req.erase id

/-- The manager state: the members of `MapManager::Manager` that the claims
are about (`m_maps_requested`, the `files.sqlite` table behind
`m_query_files_*`, `m_download_type`, `m_not_needed_files`,
`m_not_needed_files_size`, `m_storage_available`). -/
structure Manager where
  mapsRequested : Finset String
  registry : List RegistryEntry
  downloadType : DownloadType
  notNeededFiles : List String
  notNeededFilesSize : Int
  storageAvailable : Bool
deriving DecidableEq

/-- The freshly constructed manager: the in-class member initializers of
`mapmanager.h` give `m_download_type{NoDownload}`,
`m_not_needed_files_size{-1}`, `m_storage_available{false}`, and default
(empty) containers. -/
def initManager : Manager where
  mapsRequested := ∅
  registry := []
  downloadType := DownloadType.NoDownload
  notNeededFiles := []
  notNeededFilesSize := -1
  storageAvailable := false

/-- How many download sessions are active in a state: the class stores one
`m_download_type`, so a state carries at most one session. -/
def activeSessionCount (st : Manager) : Nat :=
  if st.downloadType = DownloadType.NoDownload then 0 else 1

/-- Modelled from the spec: `startDownload` fails and changes nothing when a
session is already active (`AlreadyDownloading`); otherwise it activates a
session of the given kind. -/
def startDownload (st : Manager) (t : DownloadType) : Manager × Bool :=
  if st.downloadType ≠ DownloadType.NoDownload then (st, false)
  else ({ st with downloadType := t }, true)

/-- Modelled from the spec: the list of non-needed files is `Unavailable`
(empty) while a download is active; otherwise it is the files on disk that
have no registry entry. -/
def computeNonNeeded (disk : List String) (st : Manager) : List String :=
  if st.downloadType ≠ DownloadType.NoDownload then []
  else disk.filter (fun p => st.registry.all (fun e => e.path != p))

/-- Modelled from the spec: `getNonNeededFilesList` fails with an empty list
and a stored size of `-1` while a download is active (doc comment in
`mapmanager.h`); otherwise it stores and returns the non-needed files and
their total size. -/
def getNonNeededFilesList (disk : List String) (sizeOf : String → Nat)
    (st : Manager) : Manager × List String :=
  if st.downloadType ≠ DownloadType.NoDownload then
    ({ st with notNeededFiles := [], notNeededFilesSize := -1 }, [])
  else
    let files := computeNonNeeded disk st
    ({ st with notNeededFiles := files,
               notNeededFilesSize :=
                 Int.ofNat (files.foldl (fun s p => s + sizeOf p) 0) },
     files)

/-- `getNonNeededFilesSize` returns the size recorded by the last
`getNonNeededFilesList`; negative when the list was not found
(doc comment in `mapmanager.h`). -/
def getNonNeededFilesSize (st : Manager) : Int :=
  st.notNeededFilesSize

/-- Modelled from the spec: delete the given files in order; stop at the
first file whose deletion fails, leaving it and all later files in place.
Returns the disk after deletion, the files not deleted, and the success
flag. -/
def deleteFiles (canDelete : String → Bool) :
    List String → List String → List String × List String × Bool
  | disk, [] => (disk, [], true)
  | disk, f :: rest =>
    if canDelete f then
      deleteFiles canDelete (disk.filter (fun x => x != f)) rest
    else (disk, f :: rest, false)

/-- Modelled from the spec: `deleteNonNeededFiles` deletes the given files
only when they are exactly the currently non-needed files (element for
element); any mismatch aborts with zero deletions. Returns the manager, the
disk after the call, the files left undeleted, and the success flag. -/
def deleteNonNeededFiles (canDelete : String → Bool) (disk : List String)
    (st : Manager) (files : List String) :
    Manager × List String × List String × Bool :=
  if files = computeNonNeeded disk st then
    let r := deleteFiles canDelete disk files
    (st, r.1, r.2.1, r.2.2)
  else (st, disk, [], false)

/-- Error message of `mapmanager.cpp` line 1134 (from the translation
catalogue in the source tree). -/
def updateMsgStorage : String :=
  "Cannot check for updates due to missing maps storage folder"

/-- Error message of `mapmanager.cpp` line 1136 (from the translation
catalogue in the source tree). -/
def updateMsgRequested : String :=
  "Cannot check for updates due to missing list of requested countries. Select countries before checking for updates."

/-- Modelled from the spec: `updateProvided` requires the storage root to be
configured and a non-empty requested set; each missing precondition fails
with its own error message and without starting the catalog fetch. The
boolean is `true` exactly when the catalog fetch is started. -/
def updateProvided (st : Manager) : Bool × Option String :=
  if st.storageAvailable = false then (false, some updateMsgStorage)
  else if st.mapsRequested = ∅ then (false, some updateMsgRequested)
  else (true, none)

/-- A Download Queue Item (`FilesToDownload` entry): dataset id, destination
path and version to record on success. -/
structure QItem where
  id : String
  path : String
  version : String
deriving DecidableEq, Repr

/-- Outcome reported by the Downloader collaborator for one item: success, or
failure (network error or timeout). -/
inductive DlOutcome
  | success
  | failure
deriving DecidableEq, Repr

/-- Modelled from the spec: registry upsert — the new entry replaces any
entry with the same path. -/
def upsert (reg : List RegistryEntry) (e : RegistryEntry) : List RegistryEntry :=
  e :: reg.filter (fun x => x.path != e.path)

/-- Record a successfully downloaded queue item in the registry. -/
def registerItem (reg : List RegistryEntry) (it : QItem) : List RegistryEntry :=
  upsert reg { path := it.path, datasetId := it.id, version := it.version }

/-- Whether a path has a registry entry (cf. `Manager::isRegistered`). -/
def isRegistered (reg : List RegistryEntry) (p : String) : Bool :=
  reg.any (fun e => e.path == p)

/-- Modelled from the spec: the Download Orchestrator drains the queue
sequentially; on Downloader success it registers the file (a registration
failure is treated exactly like a download failure); on the first failure it
aborts the whole remaining queue, keeping the registrations already made.
`dl` gives the Downloader outcome per item and `regOk` whether registering
that item succeeds. Returns the final registry and whether the whole queue
completed. -/
def runQueue (dl : QItem → DlOutcome) (regOk : QItem → Bool) :
    List QItem → List RegistryEntry → List RegistryEntry × Bool
  | [], reg => (reg, true)
  | it :: rest, reg =>
    match dl it with
    | DlOutcome.success =>
      if regOk it then runQueue dl regOk rest (registerItem reg it)
      else (reg, false)
    | DlOutcome.failure => (reg, false)

/-- Modelled from the spec: one download session over a queue: run the queue
and in all cases end with the session Idle (`m_download_type = NoDownload`)
and the queue consumed. -/
def runSession (dl : QItem → DlOutcome) (regOk : QItem → Bool)
    (queue : List QItem) (st : Manager) : Manager × Bool :=
  let r := runQueue dl regOk queue st.registry
  ({ st with registry := r.1, downloadType := DownloadType.NoDownload }, r.2)

/-- Modelled from the spec: depth-first expansion of one dataset id through
the Feature Graph, appending each dataset after its dependencies and
deduplicating against the accumulator. `Nat` fuel bounds the recursion
depth; the graph is acyclic by construction, so enough fuel always exists. -/
def depClosure (deps : String → List String) :
    Nat → List String → String → List String
  | 0 => fun acc _ => acc
  | n + 1 => fun acc id =>
    if id ∈ acc then acc
    else
      let acc2 := (deps id).foldl (depClosure deps n) acc
      if id ∈ acc2 then acc2 else acc2 ++ [id]

/-- Modelled from the spec: the dependency closure of the requested set, as
an ordered deduplicated list in dependency-first order. -/
def closureList (deps : String → List String) (fuel : Nat)
    (requested : List String) : List String :=
  requested.foldl (depClosure deps fuel) []

/-- Modelled from the spec: the Missing-Data Resolver's download queue — the
closure of the requested set restricted to the ids whose data is absent
(`presentIncompatible` being treated as absent). -/
def missingQueue (deps : String → List String) (absent : String → Bool)
    (fuel : Nat) (requested : List String) : List String :=
  (closureList deps fuel requested).filter absent

/-- The resolver's absence test: an id is treated as absent unless its
availability status is `presentCompatible`. -/
def treatAsAbsent (registry : List RegistryEntry) (catalogVersion : String → String)
    (id : String) : Bool :=
  availability registry id (catalogVersion id) != Availability.presentCompatible

/-- Transitive dependency relation generated by the Feature Graph:
`DependsOnTrans deps x d` when `d` is reachable from `x` through one or more
dependency edges. -/
inductive DependsOnTrans (deps : String → List String) : String → String → Prop
  | direct {x d : String} : d ∈ deps x → DependsOnTrans deps x d
  | step {x y d : String} : DependsOnTrans deps x y → d ∈ deps y →
      DependsOnTrans deps x d

/-- A list is dependency-sorted when each element was appended only after all
its dependencies were already in the list. -/
inductive DepSorted (deps : String → List String) : List String → Prop
  | nil : DepSorted deps []
  | snoc {l : List String} {a : String} : DepSorted deps l →
      (∀ d ∈ deps a, d ∈ l) → DepSorted deps (l ++ [a])

/-! ## Helper lemmas about the dependency closure -/

theorem depClosure_zero (deps : String → List String) (acc : List String)
    (id : String) : depClosure deps 0 acc id = acc := rfl

theorem depClosure_succ (deps : String → List String) (n : Nat)
    (acc : List String) (id : String) :
    depClosure deps (n + 1) acc id =
      if id ∈ acc then acc
      else
        let acc2 := (deps id).foldl (depClosure deps n) acc
        if id ∈ acc2 then acc2 else acc2 ++ [id] := rfl

theorem depClosure_succ_mem (deps : String → List String) (n : Nat)
    (acc : List String) (id : String) (h : id ∈ acc) :
    depClosure deps (n + 1) acc id = acc := by
  simp [depClosure_succ, h]

theorem depClosure_succ_not_mem (deps : String → List String) (n : Nat)
    (acc : List String) (id : String) (h : id ∉ acc) :
    depClosure deps (n + 1) acc id =
      if id ∈ (deps id).foldl (depClosure deps n) acc then
        (deps id).foldl (depClosure deps n) acc
      else (deps id).foldl (depClosure deps n) acc ++ [id] := by
  simp [depClosure_succ, h]

theorem foldl_extends {α β : Type} (f : List α → β → List α)
    (hf : ∀ acc x, ∃ t, f acc x = acc ++ t) :
    ∀ (l : List β) (acc : List α), ∃ t, l.foldl f acc = acc ++ t := by
  intro l
  induction l with
  | nil => intro acc; exact ⟨[], by simp⟩
  | cons x xs ih =>
    intro acc
    obtain ⟨t1, h1⟩ := hf acc x
    obtain ⟨t2, h2⟩ := ih (f acc x)
    refine ⟨t1 ++ t2, ?_⟩
    rw [List.foldl_cons, h1, ← List.append_assoc]
    rw [h1] at h2
    exact h2

theorem depClosure_extends (deps : String → List String) :
    ∀ (n : Nat) (acc : List String) (id : String),
      ∃ t, depClosure deps n acc id = acc ++ t := by
  intro n
  induction n with
  | zero => intro acc id; exact ⟨[], by simp [depClosure_zero]⟩
  | succ n ih =>
    intro acc id
    by_cases h : id ∈ acc
    · exact ⟨[], by simp [depClosure_succ, h]⟩
    · obtain ⟨t, ht⟩ :=
        foldl_extends (depClosure deps n) (fun a x => ih a x) (deps id) acc
      rw [depClosure_succ_not_mem deps n acc id h]
      by_cases h2 : id ∈ (deps id).foldl (depClosure deps n) acc
      · rw [if_pos h2]
        exact ⟨t, ht⟩
      · rw [if_neg h2, ht, List.append_assoc]
        exact ⟨t ++ [id], rfl⟩

theorem depClosure_mem_mono (deps : String → List String) (n : Nat)
    (acc : List String) (id a : String) (h : a ∈ acc) :
    a ∈ depClosure deps n acc id := by
  obtain ⟨t, ht⟩ := depClosure_extends deps n acc id
  rw [ht]
  exact List.mem_append_left _ h

theorem depClosure_mem_self (deps : String → List String) (n : Nat)
    (acc : List String) (id : String) (hn : 1 ≤ n) :
    id ∈ depClosure deps n acc id := by
  cases n with
  | zero => omega
  | succ n =>
    by_cases h : id ∈ acc
    · rw [depClosure_succ_mem deps n acc id h]
      exact h
    · rw [depClosure_succ_not_mem deps n acc id h]
      by_cases h2 : id ∈ (deps id).foldl (depClosure deps n) acc
      · rw [if_pos h2]
        exact h2
      · rw [if_neg h2]
        simp

theorem foldl_nodup {α β : Type} (f : List α → β → List α)
    (hf : ∀ acc x, acc.Nodup → (f acc x).Nodup) :
    ∀ (l : List β) (acc : List α), acc.Nodup → (l.foldl f acc).Nodup := by
  intro l
  induction l with
  | nil => intro acc h; simpa
  | cons x xs ih => intro acc h; exact ih (f acc x) (hf acc x h)

theorem depClosure_nodup (deps : String → List String) :
    ∀ (n : Nat) (acc : List String) (id : String),
      acc.Nodup → (depClosure deps n acc id).Nodup := by
  intro n
  induction n with
  | zero => intro acc id h; simpa [depClosure_zero]
  | succ n ih =>
    intro acc id h
    by_cases hm : id ∈ acc
    · rw [depClosure_succ_mem deps n acc id hm]
      exact h
    · rw [depClosure_succ_not_mem deps n acc id hm]
      have h2 : ((deps id).foldl (depClosure deps n) acc).Nodup :=
        foldl_nodup (depClosure deps n) (fun a x => ih a x) (deps id) acc h
      by_cases hm2 : id ∈ (deps id).foldl (depClosure deps n) acc
      · rw [if_pos hm2]
        exact h2
      · rw [if_neg hm2]
        simp [List.nodup_append, h2, hm2]

theorem foldl_sorted_mem (deps : String → List String) (r : String → Nat)
    (n : Nat)
    (hstep : ∀ (id : String) (acc : List String), r id < n →
      DepSorted deps acc → DepSorted deps (depClosure deps n acc id)) :
    ∀ (ds : List String) (acc : List String), (∀ d ∈ ds, r d < n) →
      DepSorted deps acc →
      DepSorted deps (ds.foldl (depClosure deps n) acc) ∧
        ∀ d ∈ ds, d ∈ ds.foldl (depClosure deps n) acc := by
  intro ds
  induction ds with
  | nil =>
    intro acc _ hacc
    exact ⟨hacc, by simp⟩
  | cons d ds ih =>
    intro acc hlt hacc
    have hd : r d < n := hlt d (by simp)
    have h1 : DepSorted deps (depClosure deps n acc d) := hstep d acc hd hacc
    have hmem : d ∈ depClosure deps n acc d :=
      depClosure_mem_self deps n acc d (by omega)
    obtain ⟨hs, hm⟩ :=
      ih (depClosure deps n acc d) (fun x hx => hlt x (by simp [hx])) h1
    refine ⟨by simpa using hs, ?_⟩
    intro x hx
    rcases List.mem_cons.mp hx with h | h
    · subst h
      obtain ⟨t, ht⟩ :=
        foldl_extends (depClosure deps n)
          (fun a i => depClosure_extends deps n a i) ds (depClosure deps n acc x)
      rw [List.foldl_cons, ht]
      exact List.mem_append_left _ hmem
    · rw [List.foldl_cons]
      exact hm x h

theorem depClosure_sorted (deps : String → List String) (r : String → Nat)
    (hr : ∀ x d, d ∈ deps x → r d < r x) :
    ∀ (n : Nat) (id : String) (acc : List String), r id < n →
      DepSorted deps acc → DepSorted deps (depClosure deps n acc id) := by
  intro n
  induction n with
  | zero =>
    intro id acc h
    omega
  | succ n ih =>
    intro id acc hrid hacc
    by_cases hm : id ∈ acc
    · rw [depClosure_succ_mem deps n acc id hm]
      exact hacc
    · rw [depClosure_succ_not_mem deps n acc id hm]
      have hds : ∀ d ∈ deps id, r d < n := by
        intro d hd
        have := hr id d hd
        omega
      obtain ⟨hs, hmall⟩ := foldl_sorted_mem deps r n ih (deps id) acc hds hacc
      by_cases hm2 : id ∈ (deps id).foldl (depClosure deps n) acc
      · rw [if_pos hm2]
        exact hs
      · rw [if_neg hm2]
        exact DepSorted.snoc hs hmall

theorem DepSorted.before {deps : String → List String} {l : List String}
    (h : DepSorted deps l) :
    ∀ (l₁ : List String) (x : String) (l₂ : List String),
      l = l₁ ++ x :: l₂ → ∀ d ∈ deps x, d ∈ l₁ := by
  induction h with
  | nil =>
    intro l₁ x l₂ he
    exact absurd he (by simp)
  | @snoc l a hl hdeps ih =>
    intro l₁ x l₂ he d hd
    induction l₂ using List.reverseRecOn with
    | nil =>
      have he2 : l ++ [a] = l₁ ++ [x] := by simpa using he
      obtain ⟨hll, hax⟩ := List.append_inj' he2 rfl
      have hax2 : a = x := by simpa using hax
      subst hax2
      rw [← hll]
      exact hdeps d hd
    | append_singleton L b _ =>
      have he2 : l ++ [a] = (l₁ ++ x :: L) ++ [b] := by
        rw [he]
        simp
      obtain ⟨hll, hab⟩ := List.append_inj' he2 rfl
      exact ih l₁ x L hll d hd

theorem mem_split_of_depSorted {deps : String → List String} {l : List String}
    (h : DepSorted deps l) {x : String} (hx : x ∈ l) :
    ∀ d ∈ deps x, d ∈ l := by
  obtain ⟨l₁, l₂, hsplit⟩ := List.append_of_mem hx
  intro d hd
  have : d ∈ l₁ := h.before l₁ x l₂ hsplit d hd
  rw [hsplit]
  exact List.mem_append_left _ this

theorem filter_split {p : String → Bool} :
    ∀ (l q₁ : List String) (x : String) (q₂ : List String),
      l.filter p = q₁ ++ x :: q₂ →
      ∃ l₁ l₂, l = l₁ ++ x :: l₂ ∧ l₁.filter p = q₁ := by
  intro l
  induction l with
  | nil =>
    intro q₁ x q₂ h
    simp at h
  | cons a l ih =>
    intro q₁ x q₂ h
    by_cases hp : p a
    · rw [List.filter_cons_of_pos hp] at h
      cases q₁ with
      | nil =>
        simp at h
        obtain ⟨hax, _⟩ := h
        exact ⟨[], l, by simp [hax], by simp⟩
      | cons b q₁ =>
        simp at h
        obtain ⟨hab, hrest⟩ := h
        obtain ⟨l₁, l₂, hsplit, hfilt⟩ := ih q₁ x q₂ hrest
        refine ⟨a :: l₁, l₂, by simp [hsplit], ?_⟩
        rw [List.filter_cons_of_pos hp, hfilt, hab]
    · rw [List.filter_cons_of_neg hp] at h
      obtain ⟨l₁, l₂, hsplit, hfilt⟩ := ih q₁ x q₂ h
      refine ⟨a :: l₁, l₂, by simp [hsplit], ?_⟩
      rw [List.filter_cons_of_neg hp, hfilt]

theorem closureList_nodup (deps : String → List String) (fuel : Nat)
    (requested : List String) : (closureList deps fuel requested).Nodup :=
  foldl_nodup (depClosure deps fuel)
    (fun acc id => depClosure_nodup deps fuel acc id) requested [] List.nodup_nil

theorem closureList_sorted_mem (deps : String → List String) (r : String → Nat)
    (fuel : Nat) (requested : List String)
    (hr : ∀ x d, d ∈ deps x → r d < r x) (hf : ∀ x, r x < fuel) :
    DepSorted deps (closureList deps fuel requested) ∧
      ∀ id ∈ requested, id ∈ closureList deps fuel requested :=
  foldl_sorted_mem deps r fuel
    (fun id acc hlt hacc => depClosure_sorted deps r hr fuel id acc hlt hacc)
    requested [] (fun d _ => hf d) DepSorted.nil

theorem transDep_mem_closure (deps : String → List String) (r : String → Nat)
    (fuel : Nat) (requested : List String)
    (hr : ∀ x d, d ∈ deps x → r d < r x) (hf : ∀ x, r x < fuel)
    {id t : String} (hid : id ∈ requested) (ht : DependsOnTrans deps id t) :
    t ∈ closureList deps fuel requested := by
  obtain ⟨hsorted, hmem⟩ := closureList_sorted_mem deps r fuel requested hr hf
  induction ht with
  | @direct d hd =>
    exact mem_split_of_depSorted hsorted (hmem id hid) d hd
  | @step y d _ hd ih =>
    exact mem_split_of_depSorted hsorted ih d hd

theorem missingQueue_mem (deps : String → List String) (absent : String → Bool)
    (fuel : Nat) (requested : List String) {x : String}
    (hx : x ∈ closureList deps fuel requested) (ha : absent x = true) :
    x ∈ missingQueue deps absent fuel requested := by
  unfold missingQueue
  exact List.mem_filter.mpr ⟨hx, ha⟩

theorem missingQueue_before (deps : String → List String)
    (absent : String → Bool) (r : String → Nat) (fuel : Nat)
    (requested : List String)
    (hr : ∀ x d, d ∈ deps x → r d < r x) (hf : ∀ x, r x < fuel) :
    ∀ (q₁ : List String) (x : String) (q₂ : List String),
      missingQueue deps absent fuel requested = q₁ ++ x :: q₂ →
      ∀ d ∈ deps x, absent d = true → d ∈ q₁ := by
  intro q₁ x q₂ hq d hd had
  obtain ⟨hsorted, _⟩ := closureList_sorted_mem deps r fuel requested hr hf
  obtain ⟨l₁, l₂, hsplit, hfilt⟩ := filter_split (closureList deps fuel requested) q₁ x q₂ hq
  have hdl : d ∈ l₁ := hsorted.before l₁ x l₂ hsplit d hd
  rw [← hfilt]
  exact List.mem_filter.mpr ⟨hdl, had⟩

/-! ## Helper lemmas about the orchestrator and the garbage collector -/

theorem runQueue_nil (dl : QItem → DlOutcome) (regOk : QItem → Bool)
    (reg : List RegistryEntry) : runQueue dl regOk [] reg = (reg, true) := rfl

theorem runQueue_cons_dlFail (dl : QItem → DlOutcome) (regOk : QItem → Bool)
    (it : QItem) (rest : List QItem) (reg : List RegistryEntry)
    (h : dl it = DlOutcome.failure) :
    runQueue dl regOk (it :: rest) reg = (reg, false) := by
  simp [runQueue, h]

theorem runQueue_cons_regFail (dl : QItem → DlOutcome) (regOk : QItem → Bool)
    (it : QItem) (rest : List QItem) (reg : List RegistryEntry)
    (h1 : dl it = DlOutcome.success) (h2 : regOk it = false) :
    runQueue dl regOk (it :: rest) reg = (reg, false) := by
  simp [runQueue, h1, h2]

theorem runQueue_cons_ok (dl : QItem → DlOutcome) (regOk : QItem → Bool)
    (it : QItem) (rest : List QItem) (reg : List RegistryEntry)
    (h1 : dl it = DlOutcome.success) (h2 : regOk it = true) :
    runQueue dl regOk (it :: rest) reg =
      runQueue dl regOk rest (registerItem reg it) := by
  simp [runQueue, h1, h2]

theorem runQueue_abort (dl : QItem → DlOutcome) (regOk : QItem → Bool)
    (done : List QItem) (bad : QItem) (rest : List QItem)
    (hdone : ∀ i ∈ done, dl i = DlOutcome.success ∧ regOk i = true)
    (hbad : dl bad = DlOutcome.failure ∨ regOk bad = false) :
    ∀ reg, runQueue dl regOk (done ++ bad :: rest) reg =
      (done.foldl registerItem reg, false) := by
  induction done with
  | nil =>
    intro reg
    rcases hbad with h | h
    · simpa using runQueue_cons_dlFail dl regOk bad rest reg h
    · cases hdl : dl bad with
      | success => simpa using runQueue_cons_regFail dl regOk bad rest reg hdl h
      | failure => simpa using runQueue_cons_dlFail dl regOk bad rest reg hdl
  | cons it done ih =>
    intro reg
    obtain ⟨h1, h2⟩ := hdone it (by simp)
    rw [List.cons_append, runQueue_cons_ok dl regOk it _ reg h1 h2,
      ih (fun i hi => hdone i (by simp [hi])), List.foldl_cons]

theorem isRegistered_upsert_self (reg : List RegistryEntry)
    (e : RegistryEntry) : isRegistered (upsert reg e) e.path = true := by
  simp [isRegistered, upsert]

theorem isRegistered_upsert_mono (reg : List RegistryEntry) (e : RegistryEntry)
    (p : String) (h : isRegistered reg p = true) :
    isRegistered (upsert reg e) p = true := by
  simp only [isRegistered, upsert, List.any_cons, List.any_eq_true,
    Bool.or_eq_true, beq_iff_eq] at h ⊢
  obtain ⟨x, hx, hxp⟩ := h
  by_cases hep : e.path = p
  · exact Or.inl hep
  · refine Or.inr ⟨x, List.mem_filter.mpr ⟨hx, ?_⟩, hxp⟩
    have : x.path ≠ e.path := by
      rw [hxp]
      exact fun hc => hep hc.symm
    simpa [bne_iff_ne]

theorem isRegistered_foldl_mono (items : List QItem) :
    ∀ (reg : List RegistryEntry) (p : String), isRegistered reg p = true →
      isRegistered (items.foldl registerItem reg) p = true := by
  induction items with
  | nil =>
    intro reg p h
    simpa using h
  | cons it items ih =>
    intro reg p h
    rw [List.foldl_cons]
    exact ih _ _ (isRegistered_upsert_mono reg _ p h)

theorem isRegistered_foldl_done (items : List QItem) :
    ∀ (reg : List RegistryEntry), ∀ it ∈ items,
      isRegistered (items.foldl registerItem reg) it.path = true := by
  induction items with
  | nil => simp
  | cons a items ih =>
    intro reg it hit
    rw [List.foldl_cons]
    rcases List.mem_cons.mp hit with h | h
    · subst h
      exact isRegistered_foldl_mono items (registerItem reg it) it.path
        (isRegistered_upsert_self reg _)
    · exact ih _ it h

theorem deleteFiles_nil (canDelete : String → Bool) (disk : List String) :
    deleteFiles canDelete disk [] = (disk, [], true) := rfl

theorem deleteFiles_cons (canDelete : String → Bool) (disk : List String)
    (f : String) (rest : List String) :
    deleteFiles canDelete disk (f :: rest) =
      if canDelete f then
        deleteFiles canDelete (disk.filter (fun x => x != f)) rest
      else (disk, f :: rest, false) := rfl

theorem deleteFiles_split (canDelete : String → Bool) (okFiles : List String)
    (bad : String) (rest : List String)
    (hok : ∀ f ∈ okFiles, canDelete f = true) (hbad : canDelete bad = false) :
    ∀ disk, deleteFiles canDelete disk (okFiles ++ bad :: rest) =
      (okFiles.foldl (fun d f => d.filter (fun x => x != f)) disk,
       bad :: rest, false) := by
  induction okFiles with
  | nil =>
    intro disk
    simp [deleteFiles_cons, hbad]
  | cons f fs ih =>
    intro disk
    have hf : canDelete f = true := hok f (by simp)
    rw [List.cons_append, deleteFiles_cons, if_pos hf,
      ih (fun x hx => hok x (by simp [hx])), List.foldl_cons]

theorem foldl_filter_mem (okFiles : List String) :
    ∀ (disk : List String) (p : String), p ∈ disk → p ∉ okFiles →
      p ∈ okFiles.foldl (fun d f => d.filter (fun x => x != f)) disk := by
  induction okFiles with
  | nil =>
    intro disk p h _
    simpa using h
  | cons f fs ih =>
    intro disk p h hnot
    rw [List.foldl_cons]
    have hpf : p ≠ f := fun hc => hnot (by simp [hc])
    refine ih _ p (List.mem_filter.mpr ⟨h, by simpa [bne_iff_ne]⟩) ?_
    intro hc
    exact hnot (by simp [hc])

/-! ## Concrete data used by witnesses and counterexamples -/

def exIdA : String := "territory/estonia"

def exIdB : String := "postal/global"

def exDeps : String → List String := fun s => if s = exIdA then [exIdB] else []

def exAbsentA : String → Bool := fun s => s == exIdA

def exAllAbsent : String → Bool := fun _ => true

def exRank : String → Nat := fun s => if s = exIdA then 1 else 0

def exZeroRank : String → Nat := fun _ => 0

def exItem1 : QItem := { id := "territory/estonia", path := "f1", version := "1" }

def exItem2 : QItem := { id := "postal/global", path := "f2", version := "1" }

def exItem3 : QItem := { id := "territory/latvia", path := "f3", version := "1" }

def exDl : QItem → DlOutcome :=
  fun it => if it = exItem2 then DlOutcome.failure else DlOutcome.success

def exRegOk : QItem → Bool := fun _ => true

def exActiveManager : Manager :=
  { initManager with downloadType := DownloadType.Countries }

def exStorageManager : Manager :=
  { initManager with storageAvailable := true }

def exEntry : RegistryEntry :=
  { path := "f1", datasetId := "territory/estonia", version := "1" }

def exCatalogVersion : String → String := fun _ => "2"

def exPath1 : String := "p1"

def exPath2 : String := "p2"

def exPath3 : String := "p3"

def exCanDelete : String → Bool := fun s => s == exPath1

/-! ## The claims -/

/-- Claim C1: when the current queue item fails (Downloader failure or a
failure to register it in the registry), the Download Orchestrator aborts
every remaining item of the queue — the final registry holds exactly the
registrations of the prior successful items, each of which keeps a registry
entry — reports failure, and the session ends Idle with the queue dropped. -/
theorem claim_C1_fail_fast (dl : QItem → DlOutcome) (regOk : QItem → Bool)
    (done : List QItem) (bad : QItem) (rest : List QItem) (st : Manager)
    (hdone : ∀ i ∈ done, dl i = DlOutcome.success ∧ regOk i = true)
    (hbad : dl bad = DlOutcome.failure ∨ regOk bad = false) :
    runSession dl regOk (done ++ bad :: rest) st =
      ({ st with registry := done.foldl registerItem st.registry,
                 downloadType := DownloadType.NoDownload }, false) ∧
    ∀ i ∈ done,
      isRegistered (done.foldl registerItem st.registry) i.path = true := by
  have h := runQueue_abort dl regOk done bad rest hdone hbad st.registry
  constructor
  · simp [runSession, h]
  · intro i hi
    exact isRegistered_foldl_done done st.registry i hi

theorem claim_C1_fail_fast_witness :
    runSession exDl exRegOk ([exItem1] ++ exItem2 :: [exItem3]) initManager =
      ({ initManager with
          registry := [exItem1].foldl registerItem initManager.registry,
          downloadType := DownloadType.NoDownload }, false) ∧
    ∀ i ∈ [exItem1],
      isRegistered ([exItem1].foldl registerItem initManager.registry) i.path
        = true :=
  claim_C1_fail_fast exDl exRegOk [exItem1] exItem2 [exItem3] initManager
    (by decide) (Or.inl (by decide))

/-- Claim C2 fails as stated: a transitive dependency that is already
present (and compatible) is not put on the queue by the Resolver. Here
`exIdA` is requested and declares the dependency `exIdB`, but `exIdB` is not
absent, so the resolved queue is `[exIdA]` and does not contain the
transitive dependency `exIdB`. -/
theorem claim_C2_counterexample :
    exIdB ∈ exDeps exIdA ∧
    DependsOnTrans exDeps exIdA exIdB ∧
    missingQueue exDeps exAbsentA 2 [exIdA] = [exIdA] ∧
    exIdB ∉ missingQueue exDeps exAbsentA 2 [exIdA] := by
  refine ⟨by decide, DependsOnTrans.direct (by decide), by decide, by decide⟩

/-- Claim C2 (amended): for an acyclic feature graph (witnessed by a rank
function) and enough fuel, the resolved download queue contains, exactly
once, every requested id and every transitive dependency of a requested id
whose data is absent, and the queue is in dependency-first order: each
queued dataset's queued dependencies appear in the queue before the dataset
itself. -/
theorem claim_C2_closure (deps : String → List String) (absent : String → Bool)
    (r : String → Nat) (fuel : Nat) (requested : List String)
    (hr : ∀ x d, d ∈ deps x → r d < r x) (hf : ∀ x, r x < fuel) :
    (missingQueue deps absent fuel requested).Nodup ∧
    (∀ id ∈ requested, absent id = true →
      id ∈ missingQueue deps absent fuel requested) ∧
    (∀ id ∈ requested, ∀ t, DependsOnTrans deps id t → absent t = true →
      t ∈ missingQueue deps absent fuel requested) ∧
    (∀ (q₁ : List String) (x : String) (q₂ : List String),
      missingQueue deps absent fuel requested = q₁ ++ x :: q₂ →
      ∀ d ∈ deps x, absent d = true → d ∈ q₁) := by
  refine ⟨?_, ?_, ?_, ?_⟩
  · exact (closureList_nodup deps fuel requested).filter _
  · intro id hid ha
    exact missingQueue_mem deps absent fuel requested
      ((closureList_sorted_mem deps r fuel requested hr hf).2 id hid) ha
  · intro id hid t ht ha
    exact missingQueue_mem deps absent fuel requested
      (transDep_mem_closure deps r fuel requested hr hf hid ht) ha
  · exact missingQueue_before deps absent r fuel requested hr hf

theorem claim_C2_closure_witness :
    (missingQueue exDeps exAllAbsent 2 [exIdA]).Nodup ∧
    (∀ id ∈ [exIdA], exAllAbsent id = true →
      id ∈ missingQueue exDeps exAllAbsent 2 [exIdA]) ∧
    (∀ id ∈ [exIdA], ∀ t, DependsOnTrans exDeps id t → exAllAbsent t = true →
      t ∈ missingQueue exDeps exAllAbsent 2 [exIdA]) ∧
    (∀ (q₁ : List String) (x : String) (q₂ : List String),
      missingQueue exDeps exAllAbsent 2 [exIdA] = q₁ ++ x :: q₂ →
      ∀ d ∈ exDeps x, exAllAbsent d = true → d ∈ q₁) :=
  claim_C2_closure exDeps exAllAbsent exRank 2 [exIdA]
    (by
      intro x d hd
      by_cases hx : x = exIdA
      · subst hx
        simp [exDeps] at hd
        subst hd
        decide
      · simp [exDeps, hx] at hd)
    (by
      intro x
      unfold exRank
      by_cases hx : x = exIdA
      · rw [if_pos hx]
        omega
      · rw [if_neg hx]
        omega)

/-- Claim C3: calling `deleteNonNeededFiles` with a list that is not element
for element the currently non-needed list (in particular, the list returned
by an earlier `getNonNeededFilesList` after any intervening change) deletes
nothing: the manager state and the disk are returned unchanged and failure
is reported. -/
theorem claim_C3_mismatch_noop (canDelete : String → Bool)
    (disk0 : List String) (szf : String → Nat) (st0 : Manager)
    (disk1 : List String) (st1 : Manager)
    (h : (getNonNeededFilesList disk0 szf st0).2 ≠ computeNonNeeded disk1 st1) :
    deleteNonNeededFiles canDelete disk1 st1
        (getNonNeededFilesList disk0 szf st0).2 = (st1, disk1, [], false) := by
  unfold deleteNonNeededFiles
  rw [if_neg h]

theorem claim_C3_mismatch_noop_witness :
    deleteNonNeededFiles exCanDelete [] initManager
        (getNonNeededFilesList [exPath1] (fun _ => 1) initManager).2 =
      (initManager, [], [], false) :=
  claim_C3_mismatch_noop exCanDelete [exPath1] (fun _ => 1) initManager []
    initManager (by decide)

/-- Claim C4: while a download session is active, `getNonNeededFilesList`
returns the Unavailable result: an empty file list with a stored size of
`-1`, as reported by `getNonNeededFilesSize`. -/
theorem claim_C4_unavailable_when_active (disk : List String)
    (szf : String → Nat) (st : Manager)
    (h : st.downloadType ≠ DownloadType.NoDownload) :
    (getNonNeededFilesList disk szf st).2 = [] ∧
    (getNonNeededFilesList disk szf st).1.notNeededFiles = [] ∧
    getNonNeededFilesSize (getNonNeededFilesList disk szf st).1 = -1 := by
  refine ⟨?_, ?_, ?_⟩ <;> simp [getNonNeededFilesList, getNonNeededFilesSize, h]

theorem claim_C4_unavailable_when_active_witness :
    (getNonNeededFilesList [exPath1, exPath2] (fun _ => 5) exActiveManager).2
        = [] ∧
    (getNonNeededFilesList [exPath1, exPath2] (fun _ => 5)
        exActiveManager).1.notNeededFiles = [] ∧
    getNonNeededFilesSize
        (getNonNeededFilesList [exPath1, exPath2] (fun _ => 5)
          exActiveManager).1 = -1 :=
  claim_C4_unavailable_when_active [exPath1, exPath2] (fun _ => 5)
    exActiveManager (by decide)

/-- Claim C5: a state holds at most one active download session, and a
request to start a new download while one is active fails and leaves the
state (hence the active session) unchanged. -/
theorem claim_C5_single_session :
    (∀ st : Manager, activeSessionCount st ≤ 1) ∧
    (∀ (st : Manager) (t : DownloadType),
      st.downloadType ≠ DownloadType.NoDownload →
      startDownload st t = (st, false)) := by
  constructor
  · intro st
    unfold activeSessionCount
    split <;> omega
  · intro st t h
    simp [startDownload, h]

theorem claim_C5_single_session_witness :
    startDownload exActiveManager DownloadType.ServerUrl =
      (exActiveManager, false) :=
  claim_C5_single_session.2 exActiveManager DownloadType.ServerUrl (by decide)

/-- Claim C6: a registry entry whose version differs from the catalog's
version for that id makes the Availability Status `presentIncompatible`;
the Resolver then treats the id as absent and, when the id is requested,
puts it on the download queue. -/
theorem claim_C6_version_skew (registry : List RegistryEntry)
    (e : RegistryEntry) (id : String) (catalogVersion : String → String)
    (deps : String → List String) (r : String → Nat) (fuel : Nat)
    (requested : List String)
    (he : e ∈ registry) (hid : e.datasetId = id)
    (hv : e.version ≠ catalogVersion id)
    (hr : ∀ x d, d ∈ deps x → r d < r x) (hf : ∀ x, r x < fuel)
    (hreq : id ∈ requested) :
    availability registry id (catalogVersion id) =
      Availability.presentIncompatible ∧
    treatAsAbsent registry catalogVersion id = true ∧
    id ∈ missingQueue deps (treatAsAbsent registry catalogVersion) fuel
        requested := by
  have hmem : e ∈ registry.filter (fun x => x.datasetId == id) :=
    List.mem_filter.mpr ⟨he, by simp [hid]⟩
  have hne : registry.filter (fun x => x.datasetId == id) ≠ [] :=
    List.ne_nil_of_mem hmem
  have hall : ((registry.filter (fun x => x.datasetId == id)).all
      (fun x => x.version == catalogVersion id)) = false := by
    cases hcase : ((registry.filter (fun x => x.datasetId == id)).all
        (fun x => x.version == catalogVersion id)) with
    | true =>
      exfalso
      have := List.all_eq_true.mp hcase e hmem
      simp at this
      exact hv this
    | false => rfl
  have havail : availability registry id (catalogVersion id) =
      Availability.presentIncompatible := by
    unfold availability
    rw [if_neg hne, if_neg (by simp [hall])]
  refine ⟨havail, ?_, ?_⟩
  · unfold treatAsAbsent
    rw [havail]
    rfl
  · exact missingQueue_mem deps _ fuel requested
      ((closureList_sorted_mem deps r fuel requested hr hf).2 id hreq)
      (by unfold treatAsAbsent; rw [havail]; rfl)

theorem claim_C6_version_skew_witness :
    availability [exEntry] exIdA (exCatalogVersion exIdA) =
      Availability.presentIncompatible ∧
    treatAsAbsent [exEntry] exCatalogVersion exIdA = true ∧
    exIdA ∈ missingQueue (fun _ => []) (treatAsAbsent [exEntry] exCatalogVersion)
        1 [exIdA] :=
  claim_C6_version_skew [exEntry] exEntry exIdA exCatalogVersion (fun _ => [])
    exZeroRank 1 [exIdA] (by decide) (by decide) (by decide)
    (by intro x d hd; simp at hd) (by intro x; exact Nat.zero_lt_one)
    (by decide)

/-- Claim C7: `deleteNonNeededFiles` with a matching list deletes the files
in order and stops at the first file whose deletion fails: the files before
the failure are removed from the disk, the failing file and every later file
stay on the disk, the undeleted files are reported back, and failure is
reported. -/
theorem claim_C7_partial_delete (canDelete : String → Bool)
    (disk : List String) (st : Manager) (okFiles : List String) (bad : String)
    (rest : List String)
    (hmatch : okFiles ++ bad :: rest = computeNonNeeded disk st)
    (hok : ∀ f ∈ okFiles, canDelete f = true) (hbad : canDelete bad = false) :
    deleteNonNeededFiles canDelete disk st (okFiles ++ bad :: rest) =
      (st, okFiles.foldl (fun d f => d.filter (fun x => x != f)) disk,
       bad :: rest, false) ∧
    (bad ∈ disk → bad ∉ okFiles →
      bad ∈ okFiles.foldl (fun d f => d.filter (fun x => x != f)) disk) ∧
    (∀ p ∈ rest, p ∈ disk → p ∉ okFiles →
      p ∈ okFiles.foldl (fun d f => d.filter (fun x => x != f)) disk) := by
  refine ⟨?_, ?_, ?_⟩
  · unfold deleteNonNeededFiles
    rw [if_pos hmatch]
    simp only [deleteFiles_split canDelete okFiles bad rest hok hbad disk]
  · intro h1 h2
    exact foldl_filter_mem okFiles disk bad h1 h2
  · intro p _ h1 h2
    exact foldl_filter_mem okFiles disk p h1 h2

theorem claim_C7_partial_delete_witness :
    deleteNonNeededFiles exCanDelete [exPath1, exPath2, exPath3] initManager
        ([exPath1] ++ exPath2 :: [exPath3]) =
      (initManager,
       [exPath1].foldl (fun d f => d.filter (fun x => x != f))
         [exPath1, exPath2, exPath3],
       exPath2 :: [exPath3], false) ∧
    (exPath2 ∈ [exPath1, exPath2, exPath3] → exPath2 ∉ [exPath1] →
      exPath2 ∈ [exPath1].foldl (fun d f => d.filter (fun x => x != f))
        [exPath1, exPath2, exPath3]) ∧
    (∀ p ∈ [exPath3], p ∈ [exPath1, exPath2, exPath3] → p ∉ [exPath1] →
      p ∈ [exPath1].foldl (fun d f => d.filter (fun x => x != f))
        [exPath1, exPath2, exPath3]) :=
  claim_C7_partial_delete exCanDelete [exPath1, exPath2, exPath3] initManager
    [exPath1] exPath2 [exPath3] (by decide) (by decide) (by decide)

/-- Claim C8: `updateProvided` with the storage root unavailable, or with an
empty requested set, fails without starting the catalog fetch, and the two
missing preconditions produce distinct error messages. -/
theorem claim_C8_preconditions :
    (∀ st : Manager, st.storageAvailable = false →
      updateProvided st = (false, some updateMsgStorage)) ∧
    (∀ st : Manager, st.storageAvailable = true → st.mapsRequested = ∅ →
      updateProvided st = (false, some updateMsgRequested)) ∧
    updateMsgStorage ≠ updateMsgRequested ∧
    (∀ st : Manager, (updateProvided st).1 = true →
      st.storageAvailable = true ∧ st.mapsRequested ≠ ∅) := by
  refine ⟨?_, ?_, by decide, ?_⟩
  · intro st h
    simp [updateProvided, h]
  · intro st h1 h2
    simp [updateProvided, h1, h2]
  · intro st h
    unfold updateProvided at h
    by_cases h1 : st.storageAvailable = false
    · rw [if_pos h1] at h
      simp at h
    · by_cases h2 : st.mapsRequested = ∅
      · rw [if_neg h1, if_pos h2] at h
        simp at h
      · exact ⟨by simpa using h1, h2⟩

theorem claim_C8_preconditions_witness :
    updateProvided initManager = (false, some updateMsgStorage) ∧
    updateProvided exStorageManager = (false, some updateMsgRequested) :=
  ⟨claim_C8_preconditions.1 initManager rfl,
   claim_C8_preconditions.2.1 exStorageManager rfl rfl⟩

/-- Claim C9 fails as stated: when the id is already requested, adding it is
a no-op and removing it then changes the set, so the add-then-remove pair
does not restore the prior Requested Set. -/
theorem claim_C9_counterexample :
    rmCountry (addCountry {exIdA} exIdA) exIdA = (∅ : Finset String) ∧
    (∅ : Finset String) ≠ {exIdA} := by
  constructor
  · unfold addCountry rmCountry
    rw [Finset.insert_eq_self.mpr (Finset.mem_singleton_self exIdA)]
    exact Finset.erase_singleton exIdA
  · exact Ne.symm (Finset.singleton_ne_empty exIdA)

/-- Claim C9 (amended): add-then-remove of a dataset id restores the
Requested Set when the id was not requested before, and remove-then-add
restores it when the id was requested before. -/
theorem claim_C9_add_rm (req : Finset String) (id : String) :
    (id ∉ req → rmCountry (addCountry req id) id = req) ∧
    (id ∈ req → addCountry (rmCountry req id) id = req) := by
  constructor
  · intro h
    unfold addCountry rmCountry
    exact Finset.erase_insert h
  · intro h
    unfold addCountry rmCountry
    exact Finset.insert_erase h

theorem claim_C9_add_rm_witness :
    rmCountry (addCountry ∅ exIdA) exIdA = ∅ ∧
    addCountry (rmCountry {exIdA} exIdA) exIdA = {exIdA} :=
  ⟨(claim_C9_add_rm ∅ exIdA).1 (Finset.not_mem_empty exIdA),
   (claim_C9_add_rm {exIdA} exIdA).2 (Finset.mem_singleton_self exIdA)⟩

/-- Claim C10: at construction the stored non-needed-files list is empty and
`getNonNeededFilesSize` reports `-1`, and these are exactly the observables
produced by `getNonNeededFilesList` while a download is active — the same
sentinel encoding, so the two situations are indistinguishable to a
caller. -/
theorem claim_C10_initial_sentinel :
    initManager.notNeededFiles = [] ∧
    getNonNeededFilesSize initManager = -1 ∧
    (∀ (disk : List String) (szf : String → Nat) (st : Manager),
      st.downloadType ≠ DownloadType.NoDownload →
      (getNonNeededFilesList disk szf st).2 = initManager.notNeededFiles ∧
      getNonNeededFilesSize (getNonNeededFilesList disk szf st).1 =
        getNonNeededFilesSize initManager) := by
  refine ⟨rfl, rfl, ?_⟩
  intro disk szf st h
  constructor <;>
    simp [getNonNeededFilesList, getNonNeededFilesSize, h, initManager]

theorem claim_C10_initial_sentinel_witness :
    (getNonNeededFilesList [exPath3] (fun _ => 7) exActiveManager).2 =
      initManager.notNeededFiles ∧
    getNonNeededFilesSize
        (getNonNeededFilesList [exPath3] (fun _ => 7) exActiveManager).1 =
      getNonNeededFilesSize initManager :=
  claim_C10_initial_sentinel.2.2 [exPath3] (fun _ => 7) exActiveManager
    (by decide)

end OsmScout
